import Mathlib

/-!
A shallow embedding of the DNS message codec of `fadyZohdy/dns-server-rust`
(files `src/types.rs` and `src/parser.rs`), together with proofs about it.

Byte buffers are `List Nat` whose elements model `u8` values; machine
integers (`u16`, `u32`) are `Nat` carrying their range as a side invariant,
with `% 2 ^ w` written out wherever the Rust code performs a truncating cast.
Rust `anyhow` errors become the `ParseErr` type; a Rust panic (an
out-of-bounds slice index) and non-termination are separate outcomes, so
every parsing function is a total function into `Outcome`.
-/

/-- Errors produced through `anyhow` in the parser: a `String::from_utf8`
failure while reading a label, and the `RecordType::try_from` failure
"Unknown record type: v". -/
inductive ParseErr where
  | utf8Error
  | unknownRecordType (v : Nat)
deriving DecidableEq, Repr

/-- Total outcome of running a piece of Rust code: it can fail to
terminate (`diverge`), abort on a panic such as an out-of-bounds slice
index (`panic`), return `Err` (`err`), or return `Ok` (`ok`).
The fuel-indexed parsing functions below return `diverge` exactly when the
fuel runs out. -/
inductive Outcome (α : Type) where
  | diverge
  | panic
  | err (e : ParseErr)
  | ok (a : α)
deriving DecidableEq, Repr

/-- `types.rs`: `enum OpCode { Query, IQuery, Status, Reserved(u8) }`. -/
inductive OpCode where
  | Query
  | IQuery
  | Status
  | Reserved (n : Nat)
deriving DecidableEq, Repr

/-- `impl From<OpCode> for u8`. -/
def OpCode.toNat : OpCode → Nat
  | .Query => 0
  | .IQuery => 1
  | .Status => 2
  | .Reserved n => n

/-- `types.rs`: `enum RCode`. -/
inductive RCode where
  | NoError
  | FormatError
  | ServerFailure
  | NameError
  | NotImplemented
  | Refused
deriving DecidableEq, Repr

/-- `impl From<RCode> for u8`. -/
def RCode.toNat : RCode → Nat
  | .NoError => 0
  | .FormatError => 1
  | .ServerFailure => 2
  | .NameError => 3
  | .NotImplemented => 4
  | .Refused => 5

/-- `types.rs`: `enum RecordType { A, NS, Cname, MX }`. -/
inductive RecordType where
  | A
  | NS
  | Cname
  | MX
deriving DecidableEq, Repr

/-- `impl From<RecordType> for u16`. -/
def RecordType.toNat : RecordType → Nat
  | .A => 1
  | .NS => 2
  | .Cname => 5
  | .MX => 15

/-- `impl TryFrom<u16> for RecordType`: codes 1, 2, 5, 15 map to the four
variants, every other code is the `anyhow` error "Unknown record type". -/
def RecordType.tryFrom (v : Nat) : Option RecordType :=
  if v = 1 then some .A
  else if v = 2 then some .NS
  else if v = 5 then some .Cname
  else if v = 15 then some .MX
  else none

/-- `types.rs`: `enum RecordClass { IN }`. -/
inductive RecordClass where
  | IN
deriving DecidableEq, Repr

/-- `impl From<RecordClass> for u16`. -/
def RecordClass.toNat : RecordClass → Nat
  | .IN => 1

/-- `types.rs`: `struct Label(pub String)`, modelled by the UTF-8 bytes of
the wrapped string. -/
abbrev Label : Type := List Nat

/-- `types.rs`: `struct Header`. The `flags: [u8; 2]` array is modelled by
the two byte fields `flags0` and `flags1`. -/
structure Header where
  id : Nat
  flags0 : Nat
  flags1 : Nat
  qdcount : Nat
  ancount : Nat
  nscount : Nat
  arcount : Nat
deriving DecidableEq, Repr

/-- `Header::new_reply`: start from `Header::default()` (all fields zero)
with the given id, then set the top bit of the first flag byte. -/
def Header.new_reply (id : Nat) : Header :=
  let h : Header :=
    { id := id, flags0 := 0, flags1 := 0,
      qdcount := 0, ancount := 0, nscount := 0, arcount := 0 }
  { h with flags0 := h.flags0 ||| 128 }

/-- `Header::set_opcode`: `self.flags[0] |= (u8::from(opcode) << 3) & 0b0111_1000`.
The `<<` acts on a `u8`, hence the `% 256`. -/
def Header.set_opcode (h : Header) (opcode : OpCode) : Header :=
  let value := OpCode.toNat opcode
  let mask := (value <<< 3) % 256 &&& 120
  { h with flags0 := h.flags0 ||| mask }

/-- `Header::get_rd`: `self.flags[0] & 0b0000_0001 > 0`. -/
def Header.get_rd (h : Header) : Bool :=
  h.flags0 &&& 1 > 0

/-- `Header::set_rd`: or the first flag byte with `0b0000_0001` when `rd`
is true, and with `0b0000_0000` when it is false. -/
def Header.set_rd (h : Header) (rd : Bool) : Header :=
  if rd then { h with flags0 := h.flags0 ||| 1 }
  else { h with flags0 := h.flags0 ||| 0 }

/-- `Header::set_rcode`: `self.flags[1] |= u8::from(rcode)`. -/
def Header.set_rcode (h : Header) (rcode : RCode) : Header :=
  { h with flags1 := h.flags1 ||| RCode.toNat rcode }

/-- `types.rs`: `struct Question`. -/
structure Question where
  name : List Label
  record_type : RecordType
  record_class : RecordClass
deriving DecidableEq, Repr

/-- `types.rs`: `struct Answer`. -/
structure Answer where
  name : List Label
  record_type : RecordType
  record_class : RecordClass
  ttl : Nat
  rdata : List Nat
deriving DecidableEq, Repr

/-- `types.rs`: `struct Authority {}`. -/
structure Authority where
deriving DecidableEq, Repr

/-- `types.rs`: `struct Additional {}`. -/
structure Additional where
deriving DecidableEq, Repr

/-- `types.rs`: `struct Message`. -/
structure Message where
  header : Header
  questions : List Question
  answers : List Answer
  authority : Authority
  additional : Additional
deriving DecidableEq, Repr

/-- `BytesMut::put_u16`: the two big-endian bytes of a `u16` value. -/
def u16be (n : Nat) : List Nat :=
  [n / 256, n % 256]

/-- `BytesMut::put_u32`: the four big-endian bytes of a `u32` value. -/
def u32be (n : Nat) : List Nat :=
  [n / 16777216, n / 65536 % 256, n / 256 % 256, n % 256]

/-- `impl From<Label> for Vec<u8>`: `put_u8(len as u8)` (a truncating cast,
hence `% 256`) followed by the string's bytes. -/
def Label.to_bytes (l : Label) : List Nat :=
  (List.length l % 256) :: l

/-- The byte encoding of a name: each label's bytes in order, then the zero
terminator byte (`buf.put_u8(0)` in `From<Question>` / `From<Answer>`). -/
def encodeName (name : List Label) : List Nat :=
  name.flatMap Label.to_bytes ++ [0]

/-- `impl From<Question> for Vec<u8>`: name, terminator, record type,
record class. -/
def Question.to_bytes (q : Question) : List Nat :=
  encodeName q.name ++ u16be q.record_type.toNat ++ u16be q.record_class.toNat

/-- `impl From<Answer> for Vec<u8>`: name, terminator, record type, record
class, ttl, rdlength (`rdata.len() as u16`, a truncating cast), rdata. -/
def Answer.to_bytes (a : Answer) : List Nat :=
  encodeName a.name ++ u16be a.record_type.toNat ++ u16be a.record_class.toNat
    ++ u32be a.ttl ++ u16be (a.rdata.length % 65536) ++ a.rdata

/-- `impl TryInto<[u8; 12]> for Header`: id, the two flag bytes, and the
four counts, all big-endian. -/
def Header.to_bytes (h : Header) : List Nat :=
  u16be h.id ++ [h.flags0, h.flags1] ++ u16be h.qdcount ++ u16be h.ancount
    ++ u16be h.nscount ++ u16be h.arcount

/-- `impl TryInto<Vec<u8>> for Message`: header bytes, then every question,
then every answer. -/
def Message.to_bytes (m : Message) : List Nat :=
  m.header.to_bytes ++ m.questions.flatMap Question.to_bytes
    ++ m.answers.flatMap Answer.to_bytes

/-- A UTF-8 continuation byte, `0x80 ..= 0xBF`. -/
def utf8Cont (b : Nat) : Bool :=
  128 ≤ b && b ≤ 191

/-- `String::from_utf8` succeeds exactly on well-formed UTF-8: ASCII,
2-byte sequences `C2..DF`, 3-byte sequences `E0..EF` excluding overlong
`E0 80..9F` and the surrogate range `ED A0..BF`, and 4-byte sequences
`F0..F4` excluding overlong `F0 80..8F` and values above `U+10FFFF`. -/
def utf8Valid : List Nat → Bool
  | [] => true
  | b :: rest =>
    if b < 128 then utf8Valid rest
    else if b < 194 then false
    else if b < 224 then
      match rest with
      | b1 :: r => utf8Cont b1 && utf8Valid r
      | [] => false
    else if b < 240 then
      match rest with
      | b1 :: b2 :: r =>
        (if b = 224 then decide (160 ≤ b1) && decide (b1 ≤ 191)
         else if b = 237 then decide (128 ≤ b1) && decide (b1 ≤ 159)
         else utf8Cont b1) && utf8Cont b2 && utf8Valid r
      | _ => false
    else if b < 245 then
      match rest with
      | b1 :: b2 :: b3 :: r =>
        (if b = 240 then decide (144 ≤ b1) && decide (b1 ≤ 191)
         else if b = 244 then decide (128 ≤ b1) && decide (b1 ≤ 143)
         else utf8Cont b1) && utf8Cont b2 && utf8Cont b3 && utf8Valid r
      | _ => false
    else false

/-- The Rust slice `packet[pos .. pos + n]`: `some` of the `n` bytes when
the range is in bounds, `none` (a panic) otherwise. -/
def readSlice (pk : List Nat) (pos n : Nat) : Option (List Nat) :=
  if pos + n ≤ pk.length then some ((pk.drop pos).take n) else none

/-- `u16::from_be_bytes` applied to `packet[pos ..= pos + 1]`: `none`
models the out-of-bounds panic. -/
def read_u16 (pk : List Nat) (pos : Nat) : Option Nat :=
  match pk[pos]?, pk[pos + 1]? with
  | some b0, some b1 => some (b0 * 256 + b1)
  | _, _ => none

/-- `u32::from_be_bytes` applied to `packet[pos .. pos + 4]`: `none`
models the out-of-bounds panic. -/
def read_u32 (pk : List Nat) (pos : Nat) : Option Nat :=
  match pk[pos]?, pk[pos + 1]?, pk[pos + 2]?, pk[pos + 3]? with
  | some b0, some b1, some b2, some b3 =>
    some (b0 * 16777216 + b1 * 65536 + b2 * 256 + b3)
  | _, _, _, _ => none

namespace DnsParser

/-- `DnsParser::parse_header`: slice the first 12 bytes (panicking when the
packet is shorter), set `pos` to 12, and build the `Header` with
`u16::from_be_bytes` on each two-byte field. -/
def parse_header (pk : List Nat) : Outcome (Header × Nat) :=
  if 12 ≤ pk.length then
    .ok ({ id := pk.getD 0 0 * 256 + pk.getD 1 0,
           flags0 := pk.getD 2 0,
           flags1 := pk.getD 3 0,
           qdcount := pk.getD 4 0 * 256 + pk.getD 5 0,
           ancount := pk.getD 6 0 * 256 + pk.getD 7 0,
           nscount := pk.getD 8 0 * 256 + pk.getD 9 0,
           arcount := pk.getD 10 0 * 256 + pk.getD 11 0 }, 12)
  else .panic

/-- `DnsParser::parse_labels`, with the loop and the recursive call on a
compression jump both metered by `fuel`; `diverge` when the fuel runs out.
Per iteration: stop at the end of the packet or at a zero byte; on a byte
with both top bits set, read the second pointer byte (panicking past the
end), recurse at the 14-bit target, and resume two bytes after the pointer;
otherwise the byte is a literal length, so slice that many content bytes
(panicking past the end), require them to be UTF-8, and continue. -/
def parse_labels (pk : List Nat) : Nat → Nat → Outcome (List Label × Nat)
  | 0, _ => .diverge
  | fuel + 1, pos =>
    match pk[pos]? with
    | none => .ok ([], pos)
    | some b =>
      if b = 0 then .ok ([], pos + 1)
      else if b &&& 192 = 192 then
        match pk[pos + 1]? with
        | none => .panic
        | some b2 =>
          match parse_labels pk fuel ((b &&& 63) * 256 + b2) with
          | .ok (ls, _) => .ok (ls, pos + 2)
          | .diverge => .diverge
          | .panic => .panic
          | .err e => .err e
      else
        match readSlice pk (pos + 1) b with
        | none => .panic
        | some content =>
          if utf8Valid content then
            match parse_labels pk fuel (pos + 1 + b) with
            | .ok (ls, p2) => .ok (content :: ls, p2)
            | .diverge => .diverge
            | .panic => .panic
            | .err e => .err e
          else .err .utf8Error

/-- `DnsParser::parse_question`: labels, then the two record type bytes
(checked via `RecordType::try_from`), then two record class bytes that are
skipped without being read; the `Question` takes its `record_class` from
`Default` (always `IN`). -/
def parse_question (pk : List Nat) (fuel pos : Nat) : Outcome (Question × Nat) :=
  match parse_labels pk fuel pos with
  | .ok (labels, p1) =>
    match read_u16 pk p1 with
    | none => .panic
    | some v =>
      match RecordType.tryFrom v with
      | none => .err (.unknownRecordType v)
      | some rt =>
        .ok ({ name := labels, record_type := rt, record_class := .IN }, p1 + 2 + 2)
  | .diverge => .diverge
  | .panic => .panic
  | .err e => .err e

/-- `DnsParser::parse_answer`: labels, record type, two skipped class
bytes, ttl, rdlength, and `rdlength` bytes of rdata. -/
def parse_answer (pk : List Nat) (fuel pos : Nat) : Outcome (Answer × Nat) :=
  match parse_labels pk fuel pos with
  | .ok (labels, p1) =>
    match read_u16 pk p1 with
    | none => .panic
    | some v =>
      match RecordType.tryFrom v with
      | none => .err (.unknownRecordType v)
      | some rt =>
        match read_u32 pk (p1 + 4) with
        | none => .panic
        | some ttl =>
          match read_u16 pk (p1 + 8) with
          | none => .panic
          | some rdlength =>
            match readSlice pk (p1 + 10) rdlength with
            | none => .panic
            | some rdata =>
              .ok ({ name := labels, record_type := rt, record_class := .IN,
                     ttl := ttl, rdata := rdata }, p1 + 10 + rdlength)
  | .diverge => .diverge
  | .panic => .panic
  | .err e => .err e

/-- `(0..header.qdcount).map(|_| self.parse_question()).collect()`:
`n` questions in sequence, stopping at the first non-`Ok` outcome. -/
def parse_questions (pk : List Nat) (fuel : Nat) : Nat → Nat → Outcome (List Question × Nat)
  | 0, pos => .ok ([], pos)
  | n + 1, pos =>
    match parse_question pk fuel pos with
    | .ok (q, p1) =>
      match parse_questions pk fuel n p1 with
      | .ok (qs, p2) => .ok (q :: qs, p2)
      | .diverge => .diverge
      | .panic => .panic
      | .err e => .err e
    | .diverge => .diverge
    | .panic => .panic
    | .err e => .err e

/-- `(0..header.ancount).map(|_| self.parse_answer()).collect()`:
`n` answers in sequence, stopping at the first non-`Ok` outcome. -/
def parse_answers (pk : List Nat) (fuel : Nat) : Nat → Nat → Outcome (List Answer × Nat)
  | 0, pos => .ok ([], pos)
  | n + 1, pos =>
    match parse_answer pk fuel pos with
    | .ok (a, p1) =>
      match parse_answers pk fuel n p1 with
      | .ok (as_, p2) => .ok (a :: as_, p2)
      | .diverge => .diverge
      | .panic => .panic
      | .err e => .err e
    | .diverge => .diverge
    | .panic => .panic
    | .err e => .err e

/-- `DnsParser::parse`: header, then `qdcount` questions, then `ancount`
answers; `authority` and `additional` come from `Default`. -/
def parse (pk : List Nat) (fuel : Nat) : Outcome Message :=
  match parse_header pk with
  | .ok (header, p0) =>
    match parse_questions pk fuel header.qdcount p0 with
    | .ok (questions, p1) =>
      match parse_answers pk fuel header.ancount p1 with
      | .ok (answers, _) =>
        .ok { header := header, questions := questions, answers := answers,
              authority := {}, additional := {} }
      | .diverge => .diverge
      | .panic => .panic
      | .err e => .err e
    | .diverge => .diverge
    | .panic => .panic
    | .err e => .err e
  | .diverge => .diverge
  | .panic => .panic
  | .err e => .err e

/-- Decoding a packet: run `parse` with enough fuel for any pointer-free
packet (one unit per loop iteration, and the position advances by at least
one byte per iteration). -/
def decode (pk : List Nat) : Outcome Message :=
  parse pk (pk.length + 1)

end DnsParser

/-- The invariant of a Rust `Label` restricted as in the spec's data
model: the underlying string has 1 to 63 bytes, and (being a `String`)
those bytes are well-formed UTF-8. -/
def ValidLabel (l : Label) : Prop :=
  1 ≤ List.length l ∧ List.length l ≤ 63 ∧ utf8Valid l = true

/-- Every label of the name is valid. -/
def ValidName (name : List Label) : Prop :=
  ∀ l ∈ name, ValidLabel l

/-- The range invariants of the `u16` and `u8` fields of a `Header`. -/
def ValidHeader (h : Header) : Prop :=
  h.id < 65536 ∧ h.flags0 < 256 ∧ h.flags1 < 256 ∧ h.qdcount < 65536
    ∧ h.ancount < 65536 ∧ h.nscount < 65536 ∧ h.arcount < 65536

/-- A syntactically valid question: a valid name. -/
def ValidQuestion (q : Question) : Prop :=
  ValidName q.name

/-- A syntactically valid answer: a valid name, a `u32` ttl, and rdata of
at most 65535 bytes. -/
def ValidAnswer (a : Answer) : Prop :=
  ValidName a.name ∧ a.ttl < 4294967296 ∧ a.rdata.length ≤ 65535

/-- A syntactically valid message whose header counts agree with the
actual list lengths. -/
def ValidMessage (m : Message) : Prop :=
  ValidHeader m.header
    ∧ m.header.qdcount = m.questions.length
    ∧ m.header.ancount = m.answers.length
    ∧ (∀ q ∈ m.questions, ValidQuestion q)
    ∧ (∀ a ∈ m.answers, ValidAnswer a)

instance (l : Label) : Decidable (ValidLabel l) := by
  unfold ValidLabel; infer_instance

instance (n : List Label) : Decidable (ValidName n) := by
  unfold ValidName; infer_instance

instance (h : Header) : Decidable (ValidHeader h) := by
  unfold ValidHeader; infer_instance

instance (q : Question) : Decidable (ValidQuestion q) := by
  unfold ValidQuestion; infer_instance

instance (a : Answer) : Decidable (ValidAnswer a) := by
  unfold ValidAnswer; infer_instance

instance (m : Message) : Decidable (ValidMessage m) := by
  unfold ValidMessage; infer_instance

/-- `bs` occurs in the packet `pk` starting exactly at index `pos`. -/
def ListAt (pk : List Nat) (pos : Nat) (bs : List Nat) : Prop :=
  ∃ pre post, pk = pre ++ (bs ++ post) ∧ pre.length = pos

theorem ListAt.length_le {pk : List Nat} {pos : Nat} {bs : List Nat}
    (h : ListAt pk pos bs) : pos + bs.length ≤ pk.length := by
  obtain ⟨pre, post, rfl, rfl⟩ := h
  simp [List.length_append]

theorem ListAt.get {pk : List Nat} {pos : Nat} {bs : List Nat}
    (h : ListAt pk pos bs) {i b : Nat} (hi : bs[i]? = some b) :
    pk[pos + i]? = some b := by
  obtain ⟨pre, post, rfl, rfl⟩ := h
  have hlt : i < bs.length := by
    rcases List.getElem?_eq_some.mp hi with ⟨hl, _⟩
    exact hl
  rw [List.getElem?_append_right (by omega)]
  rw [Nat.add_sub_cancel_left]
  rw [List.getElem?_append_left hlt]
  exact hi

theorem ListAt.readSlice_eq {pk : List Nat} {pos : Nat} {bs : List Nat}
    (h : ListAt pk pos bs) : readSlice pk pos bs.length = some bs := by
  have hle := h.length_le
  obtain ⟨pre, post, rfl, rfl⟩ := h
  unfold readSlice
  rw [if_pos hle]
  rw [List.drop_left, List.take_left]

theorem ListAt.split {pk : List Nat} {pos : Nat} {xs ys : List Nat}
    (h : ListAt pk pos (xs ++ ys)) :
    ListAt pk pos xs ∧ ListAt pk (pos + xs.length) ys := by
  obtain ⟨pre, post, hpk, hlen⟩ := h
  constructor
  · exact ⟨pre, ys ++ post, by simp [hpk], hlen⟩
  · exact ⟨pre ++ xs, post, by simp [hpk], by simp [hlen]⟩

theorem ListAt.head {pk : List Nat} {pos b : Nat} {bs : List Nat}
    (h : ListAt pk pos (b :: bs)) :
    pk[pos]? = some b ∧ ListAt pk (pos + 1) bs := by
  constructor
  · have := h.get (i := 0) (b := b) (by simp)
    simpa using this
  · have := (@ListAt.split pk pos [b] bs (by simpa using h)).2
    simpa using this

theorem read_u16_of_listAt {pk : List Nat} {pos b0 b1 : Nat}
    (h : ListAt pk pos [b0, b1]) : read_u16 pk pos = some (b0 * 256 + b1) := by
  have h0 := h.get (i := 0) (b := b0) (by simp)
  have h1 := h.get (i := 1) (b := b1) (by simp)
  simp only [Nat.add_zero] at h0
  unfold read_u16
  rw [h0, h1]

theorem read_u32_of_listAt {pk : List Nat} {pos b0 b1 b2 b3 : Nat}
    (h : ListAt pk pos [b0, b1, b2, b3]) :
    read_u32 pk pos = some (b0 * 16777216 + b1 * 65536 + b2 * 256 + b3) := by
  have h0 := h.get (i := 0) (b := b0) (by simp)
  have h1 := h.get (i := 1) (b := b1) (by simp)
  have h2 := h.get (i := 2) (b := b2) (by simp)
  have h3 := h.get (i := 3) (b := b3) (by simp)
  simp only [Nat.add_zero] at h0
  unfold read_u32
  rw [h0, h1, h2, h3]

theorem encodeName_nil : encodeName [] = [0] := by simp [encodeName]

theorem encodeName_cons (l : Label) (ls : List Label) :
    encodeName (l :: ls) = Label.to_bytes l ++ encodeName ls := by
  simp [encodeName, List.flatMap_cons, List.append_assoc]

theorem name_length_lt_encodeName (name : List Label) :
    name.length + 1 ≤ (encodeName name).length := by
  induction name with
  | nil => simp [encodeName]
  | cons l ls ih =>
    rw [encodeName_cons]
    have : 1 ≤ (Label.to_bytes l).length := by simp [Label.to_bytes]
    simp only [List.length_append, List.length_cons]
    omega

theorem parse_labels_encodeName (name : List Label) (hv : ValidName name) :
    ∀ pk pos fuel, ListAt pk pos (encodeName name) → name.length + 1 ≤ fuel →
    DnsParser.parse_labels pk fuel pos = .ok (name, pos + (encodeName name).length) := by
  induction name with
  | nil =>
    intro pk pos fuel hAt hfuel
    obtain ⟨f, rfl⟩ : ∃ f, fuel = f + 1 := ⟨fuel - 1, by omega⟩
    rw [encodeName_nil] at hAt
    obtain ⟨h0, -⟩ := hAt.head
    simp only [DnsParser.parse_labels]
    rw [h0]
    simp [encodeName_nil]
  | cons l ls ih =>
    intro pk pos fuel hAt hfuel
    obtain ⟨f, rfl⟩ : ∃ f, fuel = f + 1 := ⟨fuel - 1, by omega⟩
    obtain ⟨h1, h2, h3⟩ := hv l (by simp)
    have hv' : ValidName ls := fun x hx => hv x (by simp [hx])
    rw [encodeName_cons] at hAt
    obtain ⟨hAtL, hAtRest⟩ := @ListAt.split pk pos (Label.to_bytes l) (encodeName ls) hAt
    have hmod : List.length l % 256 = List.length l := Nat.mod_eq_of_lt (by omega)
    unfold Label.to_bytes at hAtL
    rw [hmod] at hAtL
    obtain ⟨hb, hAtContent⟩ := hAtL.head
    have hne : ¬ (List.length l = 0) := by omega
    have hptr : ¬ (List.length l &&& 192 = 192) := by
      have hal : List.length l &&& 192 ≤ List.length l := Nat.and_le_left
      omega
    have hslice : readSlice pk (pos + 1) (List.length l) = some l := by
      have hs := hAtContent.readSlice_eq
      exact hs
    have hposRest : pos + (Label.to_bytes l).length = pos + 1 + List.length l := by
      simp [Label.to_bytes]
      omega
    rw [hposRest] at hAtRest
    rw [List.length_cons] at hfuel
    have hrec := ih hv' pk (pos + 1 + List.length l) f hAtRest (by omega)
    have hlen : pos + (encodeName (l :: ls)).length
        = pos + 1 + List.length l + (encodeName ls).length := by
      rw [encodeName_cons]
      simp [Label.to_bytes]
      omega
    rw [hlen]
    simp only [DnsParser.parse_labels]
    rw [hb]
    dsimp only
    rw [if_neg hne, if_neg hptr]
    rw [hslice]
    dsimp only
    rw [if_pos h3]
    rw [hrec]

theorem recordType_roundtrip (rt : RecordType) :
    RecordType.tryFrom rt.toNat = some rt := by
  cases rt <;> rfl

theorem recordType_toNat_lt (rt : RecordType) : rt.toNat < 256 := by
  cases rt <;> decide

theorem read_u16_of_u16be {pk : List Nat} {pos n : Nat}
    (hAt : ListAt pk pos (u16be n)) : read_u16 pk pos = some n := by
  unfold u16be at hAt
  rw [read_u16_of_listAt hAt]
  congr 1
  omega

theorem read_u32_of_u32be {pk : List Nat} {pos n : Nat}
    (hAt : ListAt pk pos (u32be n)) : read_u32 pk pos = some n := by
  unfold u32be at hAt
  rw [read_u32_of_listAt hAt]
  congr 1
  omega

theorem parse_question_encode (q : Question) (hq : ValidQuestion q) :
    ∀ pk pos fuel, ListAt pk pos q.to_bytes → q.name.length + 1 ≤ fuel →
    DnsParser.parse_question pk fuel pos = .ok (q, pos + q.to_bytes.length) := by
  intro pk pos fuel hAt hfuel
  unfold Question.to_bytes at hAt
  rw [List.append_assoc] at hAt
  obtain ⟨hAtName, hAtRest⟩ :=
    @ListAt.split pk pos (encodeName q.name) (u16be q.record_type.toNat ++ u16be q.record_class.toNat) hAt
  obtain ⟨hAtType, hAtClass⟩ :=
    @ListAt.split pk (pos + (encodeName q.name).length) (u16be q.record_type.toNat) (u16be q.record_class.toNat) hAtRest
  have hlab := parse_labels_encodeName q.name hq pk pos fuel hAtName hfuel
  have htype := read_u16_of_u16be hAtType
  unfold DnsParser.parse_question
  rw [hlab]
  dsimp only
  rw [htype]
  dsimp only
  rw [recordType_roundtrip]
  dsimp only
  have hq' : ({ name := q.name, record_type := q.record_type, record_class := .IN } : Question) = q := by
    obtain ⟨n, rt, rc⟩ := q
    cases rc
    rfl
  rw [hq']
  have : pos + q.to_bytes.length = pos + (encodeName q.name).length + 2 + 2 := by
    unfold Question.to_bytes
    simp [u16be, List.length_append]
    omega
  rw [this]

theorem parse_answer_encode (a : Answer) (ha : ValidAnswer a) :
    ∀ pk pos fuel, ListAt pk pos a.to_bytes → a.name.length + 1 ≤ fuel →
    DnsParser.parse_answer pk fuel pos = .ok (a, pos + a.to_bytes.length) := by
  obtain ⟨nm, rt, rc, t, rd⟩ := a
  cases rc
  obtain ⟨hname, httl, hrd⟩ := ha
  dsimp only at hname httl hrd
  intro pk pos fuel hAt hfuel
  dsimp only at hAt hfuel
  unfold Answer.to_bytes at hAt
  dsimp only at hAt
  rw [List.append_assoc, List.append_assoc, List.append_assoc, List.append_assoc] at hAt
  obtain ⟨hAtName, hAt1⟩ := @ListAt.split pk pos (encodeName nm) _ hAt
  obtain ⟨hAtType, hAt2⟩ := @ListAt.split pk _ (u16be rt.toNat) _ hAt1
  obtain ⟨hAtClass, hAt3⟩ := @ListAt.split pk _ (u16be RecordClass.IN.toNat) _ hAt2
  obtain ⟨hAtTtl, hAt4⟩ := @ListAt.split pk _ (u32be t) _ hAt3
  obtain ⟨hAtLen, hAtData⟩ := @ListAt.split pk _ (u16be (rd.length % 65536)) _ hAt4
  simp only [u16be, u32be, List.length_cons, List.length_nil] at hAtTtl hAtLen hAtData
  have hlab := parse_labels_encodeName nm hname pk pos fuel hAtName hfuel
  have htype := read_u16_of_u16be hAtType
  have e1 : pos + (encodeName nm).length + 2 + 2
      = pos + (encodeName nm).length + 4 := by omega
  rw [e1] at hAtTtl
  have httlr := read_u32_of_u32be hAtTtl
  have e2 : pos + (encodeName nm).length + 4 + 4
      = pos + (encodeName nm).length + 8 := by omega
  rw [e2] at hAtLen
  have hlen16 := read_u16_of_u16be hAtLen
  rw [Nat.mod_eq_of_lt (by omega)] at hlen16
  have e3 : pos + (encodeName nm).length + 8 + 2
      = pos + (encodeName nm).length + 10 := by omega
  rw [e3] at hAtData
  have hdata := hAtData.readSlice_eq
  have e4 : pos + (Answer.to_bytes ⟨nm, rt, .IN, t, rd⟩).length
      = pos + (encodeName nm).length + 10 + rd.length := by
    unfold Answer.to_bytes
    simp [u16be, u32be, List.length_append]
    omega
  unfold DnsParser.parse_answer
  rw [hlab]
  dsimp only
  rw [htype]
  dsimp only
  rw [recordType_roundtrip]
  dsimp only
  rw [httlr]
  dsimp only
  rw [hlen16]
  dsimp only
  rw [hdata]
  dsimp only
  rw [e4]

theorem parse_questions_encode (qs : List Question) (hv : ∀ q ∈ qs, ValidQuestion q) :
    ∀ pk pos fuel, ListAt pk pos (qs.flatMap Question.to_bytes) →
    (∀ q ∈ qs, q.name.length + 1 ≤ fuel) →
    DnsParser.parse_questions pk fuel qs.length pos
      = .ok (qs, pos + (qs.flatMap Question.to_bytes).length) := by
  induction qs with
  | nil =>
    intro pk pos fuel hAt hfuel
    simp [DnsParser.parse_questions]
  | cons q qs ih =>
    intro pk pos fuel hAt hfuel
    rw [List.flatMap_cons] at hAt
    obtain ⟨hAtQ, hAtRest⟩ := @ListAt.split pk pos q.to_bytes (qs.flatMap Question.to_bytes) hAt
    have hq := parse_question_encode q (hv q (by simp)) pk pos fuel hAtQ (hfuel q (by simp))
    have hrec := ih (fun x hx => hv x (by simp [hx])) pk (pos + q.to_bytes.length) fuel hAtRest
      (fun x hx => hfuel x (by simp [hx]))
    rw [List.length_cons]
    simp only [DnsParser.parse_questions]
    rw [hq]
    dsimp only
    rw [hrec]
    dsimp only
    rw [List.flatMap_cons, List.length_append]
    congr 2
    omega

theorem parse_answers_encode (as_ : List Answer) (hv : ∀ a ∈ as_, ValidAnswer a) :
    ∀ pk pos fuel, ListAt pk pos (as_.flatMap Answer.to_bytes) →
    (∀ a ∈ as_, a.name.length + 1 ≤ fuel) →
    DnsParser.parse_answers pk fuel as_.length pos
      = .ok (as_, pos + (as_.flatMap Answer.to_bytes).length) := by
  induction as_ with
  | nil =>
    intro pk pos fuel hAt hfuel
    simp [DnsParser.parse_answers]
  | cons a as_ ih =>
    intro pk pos fuel hAt hfuel
    rw [List.flatMap_cons] at hAt
    obtain ⟨hAtA, hAtRest⟩ := @ListAt.split pk pos a.to_bytes (as_.flatMap Answer.to_bytes) hAt
    have ha := parse_answer_encode a (hv a (by simp)) pk pos fuel hAtA (hfuel a (by simp))
    have hrec := ih (fun x hx => hv x (by simp [hx])) pk (pos + a.to_bytes.length) fuel hAtRest
      (fun x hx => hfuel x (by simp [hx]))
    rw [List.length_cons]
    simp only [DnsParser.parse_answers]
    rw [ha]
    dsimp only
    rw [hrec]
    dsimp only
    rw [List.flatMap_cons, List.length_append]
    congr 2
    omega

theorem header_to_bytes_length (h : Header) : h.to_bytes.length = 12 := by
  simp [Header.to_bytes, u16be]

theorem parse_header_encode (h : Header) (pk : List Nat)
    (hAt : ListAt pk 0 h.to_bytes) :
    DnsParser.parse_header pk = .ok (h, 12) := by
  have h12 : (12 : Nat) ≤ pk.length := by
    have := hAt.length_le
    rw [header_to_bytes_length] at this
    omega
  have hget : ∀ i b : Nat, h.to_bytes[i]? = some b → pk.getD i 0 = b := by
    intro i b hib
    have := hAt.get hib
    rw [Nat.zero_add] at this
    simp [List.getD, this]
  have hb : h.to_bytes
      = [h.id / 256, h.id % 256, h.flags0, h.flags1,
         h.qdcount / 256, h.qdcount % 256, h.ancount / 256, h.ancount % 256,
         h.nscount / 256, h.nscount % 256, h.arcount / 256, h.arcount % 256] := by
    simp [Header.to_bytes, u16be]
  rw [hb] at hget
  unfold DnsParser.parse_header
  rw [if_pos h12]
  rw [hget 0 (h.id / 256) (by simp), hget 1 (h.id % 256) (by simp),
      hget 2 h.flags0 (by simp), hget 3 h.flags1 (by simp),
      hget 4 (h.qdcount / 256) (by simp), hget 5 (h.qdcount % 256) (by simp),
      hget 6 (h.ancount / 256) (by simp), hget 7 (h.ancount % 256) (by simp),
      hget 8 (h.nscount / 256) (by simp), hget 9 (h.nscount % 256) (by simp),
      hget 10 (h.arcount / 256) (by simp), hget 11 (h.arcount % 256) (by simp)]
  have hid : h.id / 256 * 256 + h.id % 256 = h.id := by omega
  have hqd : h.qdcount / 256 * 256 + h.qdcount % 256 = h.qdcount := by omega
  have han : h.ancount / 256 * 256 + h.ancount % 256 = h.ancount := by omega
  have hns : h.nscount / 256 * 256 + h.nscount % 256 = h.nscount := by omega
  have har : h.arcount / 256 * 256 + h.arcount % 256 = h.arcount := by omega
  rw [hid, hqd, han, hns, har]

theorem length_le_flatMap {α : Type} (f : α → List Nat) {x : α} {l : List α}
    (hx : x ∈ l) : (f x).length ≤ (l.flatMap f).length := by
  induction l with
  | nil => cases hx
  | cons a t ih =>
    rw [List.flatMap_cons, List.length_append]
    rcases List.mem_cons.mp hx with h | h
    · subst h
      omega
    · have := ih h
      omega

/-- Claim C1: for every syntactically valid `Message` whose header counts
equal the lengths of its question and answer lists, whose labels are 1-63
bytes long, and whose rdata is at most 65535 bytes, decoding the bytes
produced by encoding the message yields the message back. -/
theorem C1_encode_decode_roundtrip (m : Message) (hm : ValidMessage m) :
    DnsParser.decode m.to_bytes = .ok m := by
  obtain ⟨hd, qs, as_, au, ad⟩ := m
  cases au
  cases ad
  obtain ⟨hh, hqc, hac, hqs, has⟩ := hm
  dsimp only at hqc hac hqs has
  unfold DnsParser.decode DnsParser.parse
  have hsplit : Message.to_bytes ⟨hd, qs, as_, ⟨⟩, ⟨⟩⟩
      = hd.to_bytes ++ (qs.flatMap Question.to_bytes ++ (as_.flatMap Answer.to_bytes ++ [])) := by
    unfold Message.to_bytes
    simp [List.append_assoc]
  have hAtAll : ListAt (Message.to_bytes ⟨hd, qs, as_, ⟨⟩, ⟨⟩⟩) 0
      (hd.to_bytes ++ (qs.flatMap Question.to_bytes ++ (as_.flatMap Answer.to_bytes ++ []))) :=
    ⟨[], [], by simp [hsplit], rfl⟩
  obtain ⟨hAtH, hAtQA⟩ := @ListAt.split _ 0 hd.to_bytes _ hAtAll
  rw [header_to_bytes_length, Nat.zero_add] at hAtQA
  obtain ⟨hAtQ, hAtA0⟩ := @ListAt.split _ 12 (qs.flatMap Question.to_bytes) _ hAtQA
  obtain ⟨hAtA, -⟩ := @ListAt.split _ _ (as_.flatMap Answer.to_bytes) [] hAtA0
  rw [parse_header_encode hd _ hAtH]
  dsimp only
  rw [hqc, hac]
  have hfq : ∀ q ∈ qs, q.name.length + 1
      ≤ (Message.to_bytes ⟨hd, qs, as_, ⟨⟩, ⟨⟩⟩).length + 1 := by
    intro q hq
    have h1 := name_length_lt_encodeName q.name
    have h2 : (encodeName q.name).length ≤ q.to_bytes.length := by
      unfold Question.to_bytes
      simp [List.length_append]
    have h3 := length_le_flatMap Question.to_bytes hq
    have h4 : (qs.flatMap Question.to_bytes).length
        ≤ (Message.to_bytes ⟨hd, qs, as_, ⟨⟩, ⟨⟩⟩).length := by
      rw [hsplit]
      simp only [List.length_append, List.length_nil]
      omega
    omega
  rw [parse_questions_encode qs hqs _ 12 _ hAtQ hfq]
  dsimp only
  have hfa : ∀ a ∈ as_, a.name.length + 1
      ≤ (Message.to_bytes ⟨hd, qs, as_, ⟨⟩, ⟨⟩⟩).length + 1 := by
    intro a ha
    have h1 := name_length_lt_encodeName a.name
    have h2 : (encodeName a.name).length ≤ a.to_bytes.length := by
      unfold Answer.to_bytes
      simp [List.length_append]
    have h3 := length_le_flatMap Answer.to_bytes ha
    have h4 : (as_.flatMap Answer.to_bytes).length
        ≤ (Message.to_bytes ⟨hd, qs, as_, ⟨⟩, ⟨⟩⟩).length := by
      rw [hsplit]
      simp only [List.length_append, List.length_nil]
      omega
    omega
  rw [parse_answers_encode as_ has _ _ _ hAtA hfa]

/-- A concrete valid message exercising the C1 round trip. -/
def c1msg : Message :=
  { header := { id := 513, flags0 := 129, flags1 := 5,
                qdcount := 1, ancount := 1, nscount := 2, arcount := 3 },
    questions := [{ name := [[97], [98, 99]], record_type := .NS, record_class := .IN }],
    answers := [{ name := [[100]], record_type := .MX, record_class := .IN,
                  ttl := 3600, rdata := [10, 20, 30, 40] }],
    authority := {}, additional := {} }

/-- Witness for C1: the round trip evaluated at a concrete valid message. -/
theorem C1_encode_decode_roundtrip_witness :
    ValidMessage c1msg ∧ DnsParser.decode c1msg.to_bytes = .ok c1msg :=
  ⟨by decide, C1_encode_decode_roundtrip c1msg (by decide)⟩

theorem parse_labels_self_pointer {pk : List Nat} {pos b b2 : Nat}
    (hb : pk[pos]? = some b) (hptr : b &&& 192 = 192)
    (hb2 : pk[pos + 1]? = some b2) (hjump : (b &&& 63) * 256 + b2 = pos) :
    ∀ fuel, DnsParser.parse_labels pk fuel pos = .diverge := by
  intro fuel
  induction fuel with
  | zero => simp [DnsParser.parse_labels]
  | succ f ih =>
    have hne : ¬ (b = 0) := by
      have hle : b &&& 192 ≤ b := Nat.and_le_left
      omega
    simp only [DnsParser.parse_labels]
    rw [hb]
    dsimp only
    rw [if_neg hne, if_pos hptr]
    rw [hb2]
    dsimp only
    rw [hjump, ih]

/-- A header with qdcount 1 followed by a question name that is a
compression pointer at offset 12 whose 14-bit target is 12: the pointer
points at itself rather than strictly backward. -/
def c2pkt : List Nat :=
  [0, 0, 0, 0, 0, 1, 0, 0, 0, 0, 0, 0, 192, 12]

/-- Claim C2, what the code actually does at the failing input: the parser
has no check against non-backward pointers and no CompressionPointerLoop
error; on a self-pointing compression pointer it recurses at the same
offset forever (diverges for every fuel bound) instead of failing. -/
theorem C2_self_pointer_diverges :
    ∀ fuel, DnsParser.parse c2pkt fuel = .diverge := by
  intro fuel
  have hlab : ∀ f, DnsParser.parse_labels c2pkt f 12 = .diverge :=
    @parse_labels_self_pointer c2pkt 12 192 12 (by decide) (by decide) (by decide) (by decide)
  have hq : DnsParser.parse_question c2pkt fuel 12 = .diverge := by
    unfold DnsParser.parse_question
    rw [hlab fuel]
  have hqs : DnsParser.parse_questions c2pkt fuel 1 12 = .diverge := by
    have h1 : (1 : Nat) = 0 + 1 := rfl
    rw [h1]
    simp only [DnsParser.parse_questions]
    rw [hq]
  have hph : DnsParser.parse_header c2pkt
      = .ok ({ id := 0, flags0 := 0, flags1 := 0, qdcount := 1,
               ancount := 0, nscount := 0, arcount := 0 }, 12) := by decide
  unfold DnsParser.parse
  rw [hph]
  dsimp only
  rw [hqs]

/-- The 17-byte label longassdomainname. -/
def longLabel : List Nat :=
  [108, 111, 110, 103, 97, 115, 115, 100, 111, 109, 97, 105, 110, 110, 97, 109, 101]

/-- The packet of the repository's decompression test: qdcount 2, first
question name abc.longassdomainname.com starting at offset 12, second
question name def followed by a compression pointer to offset 16 (the
start of the longassdomainname label). -/
def c3pkt : List Nat :=
  [144, 155, 1, 0, 0, 2, 0, 0, 0, 0, 0, 0,
   3, 97, 98, 99, 17, 108, 111, 110, 103, 97, 115, 115, 100, 111, 109, 97, 105, 110, 110, 97,
   109, 101, 3, 99, 111, 109, 0, 0, 1, 0, 1,
   3, 100, 101, 102, 192, 16, 0, 1, 0, 1]

/-- The message `c3pkt` decodes to: the second question name is
def.longassdomainname.com. -/
def c3msg : Message :=
  { header := { id := 37019, flags0 := 1, flags1 := 0, qdcount := 2,
                ancount := 0, nscount := 0, arcount := 0 },
    questions :=
      [{ name := [[97, 98, 99], longLabel, [99, 111, 109]],
         record_type := .A, record_class := .IN },
       { name := [[100, 101, 102], longLabel, [99, 111, 109]],
         record_type := .A, record_class := .IN }],
    answers := [], authority := {}, additional := {} }

/-- Claim C3 (amended): decoding a name that ends in a backward
compression pointer splices in the labels found at the pointed-to offset,
and afterwards the cursor sits exactly 2 bytes past the start of the
pointer; concretely, the test packet whose second question is the label
def followed by a pointer to offset 16 decodes with second question name
def.longassdomainname.com. -/
theorem C3_pointer_splice_and_cursor :
    (∀ pk pos fuel b b2 ls p,
      pk[pos]? = some b → b &&& 192 = 192 → pk[pos + 1]? = some b2 →
      DnsParser.parse_labels pk fuel ((b &&& 63) * 256 + b2) = .ok (ls, p) →
      DnsParser.parse_labels pk (fuel + 1) pos = .ok (ls, pos + 2))
    ∧ DnsParser.decode c3pkt = .ok c3msg := by
  constructor
  · intro pk pos fuel b b2 ls p hb hptr hb2 hrec
    have hne : ¬ (b = 0) := by
      have hle : b &&& 192 ≤ b := Nat.and_le_left
      omega
    simp only [DnsParser.parse_labels]
    rw [hb]
    dsimp only
    rw [if_neg hne, if_pos hptr]
    rw [hb2]
    dsimp only
    rw [hrec]
  · decide

/-- Witness for C3: the pointer step of the theorem applied at the
concrete packet, at the pointer that starts at offset 47. -/
theorem C3_pointer_splice_and_cursor_witness :
    DnsParser.parse_labels c3pkt 10 47 = .ok ([longLabel, [99, 111, 109]], 49) :=
  C3_pointer_splice_and_cursor.1 c3pkt 47 9 192 16 [longLabel, [99, 111, 109]] 39
    (by decide) (by decide) (by decide) (by decide)

/-- The packet the claim describes: identical to `c3pkt` except that the
second question's pointer targets offset 12, the start of the first
question's whole name. -/
def c3pkt12 : List Nat :=
  [144, 155, 1, 0, 0, 2, 0, 0, 0, 0, 0, 0,
   3, 97, 98, 99, 17, 108, 111, 110, 103, 97, 115, 115, 100, 111, 109, 97, 105, 110, 110, 97,
   109, 101, 3, 99, 111, 109, 0, 0, 1, 0, 1,
   3, 100, 101, 102, 192, 12, 0, 1, 0, 1]

/-- The message `c3pkt12` decodes to: the second question name is
def.abc.longassdomainname.com. -/
def c3msg12 : Message :=
  { header := { id := 37019, flags0 := 1, flags1 := 0, qdcount := 2,
                ancount := 0, nscount := 0, arcount := 0 },
    questions :=
      [{ name := [[97, 98, 99], longLabel, [99, 111, 109]],
         record_type := .A, record_class := .IN },
       { name := [[100, 101, 102], [97, 98, 99], longLabel, [99, 111, 109]],
         record_type := .A, record_class := .IN }],
    answers := [], authority := {}, additional := {} }

/-- Counterexample to C3 as stated: with the pointer targeting offset 12
(start of the first name, as the claim says), decode yields second
question name def.abc.longassdomainname.com, not the claimed
def.longassdomainname.com. -/
theorem C3_offset12_counterexample :
    DnsParser.decode c3pkt12 = .ok c3msg12
    ∧ c3msg12.questions.map Question.name
        ≠ [[[97, 98, 99], longLabel, [99, 111, 109]],
           [[100, 101, 102], longLabel, [99, 111, 109]]] := by
  constructor
  · decide
  · decide

/-- Claim C4, what the code actually does at the failing inputs: the
parser has no TruncatedInput error; slicing panics instead. An empty
buffer and a 5-byte buffer panic in parse_header on the 12-byte slice,
and a 12-byte header followed by a label length that runs past the end of
the buffer panics in parse_labels on the content slice. -/
theorem C4_truncated_input_panics :
    DnsParser.decode [] = .panic
    ∧ DnsParser.decode [0, 1, 2, 3, 4] = .panic
    ∧ DnsParser.decode [0, 0, 0, 0, 0, 1, 0, 0, 0, 0, 0, 0, 5, 97] = .panic := by
  refine ⟨by decide, by decide, by decide⟩

/-- A header with qdcount 1 and a question whose 2-byte class field holds
2 instead of 1 (IN). -/
def c5pkt : List Nat :=
  [0, 0, 0, 0, 0, 1, 0, 0, 0, 0, 0, 0, 1, 97, 0, 0, 1, 0, 2]

/-- The message `c5pkt` decodes to. -/
def c5msg : Message :=
  { header := { id := 0, flags0 := 0, flags1 := 0, qdcount := 1,
                ancount := 0, nscount := 0, arcount := 0 },
    questions := [{ name := [[97]], record_type := .A, record_class := .IN }],
    answers := [], authority := {}, additional := {} }

/-- Counterexample to C5 as stated: a question whose class field is 2
decodes successfully (with record_class IN) instead of failing with
UnknownRecordClass. -/
theorem C5_class2_decodes_counterexample :
    DnsParser.decode c5pkt = .ok c5msg := by
  decide

/-- Claim C5 (amended): the question parser skips the 2-byte class field
without reading it: every successfully parsed Question carries
record_class IN, and a question parses to the same result whatever the
two class bytes hold. -/
theorem C5_class_field_ignored :
    (∀ pk fuel pos q p,
      DnsParser.parse_question pk fuel pos = .ok (q, p) → q.record_class = .IN)
    ∧ (∀ b1 b2 : Nat,
      DnsParser.parse_question [1, 97, 0, 0, 1, b1, b2] 8 0
        = .ok ({ name := [[97]], record_type := .A, record_class := .IN }, 7)) := by
  constructor
  · intro pk fuel pos q p h
    unfold DnsParser.parse_question at h
    split at h
    · split at h
      · exact absurd h (by simp)
      · split at h
        · exact absurd h (by simp)
        · simp only [Outcome.ok.injEq, Prod.mk.injEq] at h
          obtain ⟨h1, -⟩ := h
          rw [← h1]
    · exact absurd h (by simp)
    · exact absurd h (by simp)
    · exact absurd h (by simp)
  · intro b1 b2
    have hname : ListAt [1, 97, 0, 0, 1, b1, b2] 0 (encodeName [[97]]) :=
      ⟨[], [0, 1, b1, b2], by simp [encodeName, Label.to_bytes], rfl⟩
    have h1 := parse_labels_encodeName [[97]] (by decide) [1, 97, 0, 0, 1, b1, b2] 0 8
      hname (by decide)
    have he : (0 : Nat) + (encodeName [[97]]).length = 3 := by
      simp [encodeName, Label.to_bytes]
    rw [he] at h1
    have hAt23 : ListAt [1, 97, 0, 0, 1, b1, b2] 3 [0, 1] :=
      ⟨[1, 97, 0], [b1, b2], by simp, by simp⟩
    have htype : read_u16 [1, 97, 0, 0, 1, b1, b2] 3 = some 1 := by
      have ht := read_u16_of_listAt hAt23
      simpa using ht
    unfold DnsParser.parse_question
    rw [h1]
    dsimp only
    rw [htype]
    dsimp only
    rw [show RecordType.tryFrom 1 = some .A from rfl]

/-- Witness for C5: the record_class of the concretely parsed question is
IN. -/
theorem C5_class_field_ignored_witness :
    ({ name := [[97]], record_type := .A, record_class := .IN } : Question).record_class
      = .IN :=
  C5_class_field_ignored.1 [1, 97, 0, 0, 1, 0, 2] 8 0
    { name := [[97]], record_type := .A, record_class := .IN } 7 (by decide)

theorem testBit_or_low {a m i : Nat} (hm : m.testBit i = false) :
    (a ||| m).testBit i = a.testBit i := by
  rw [Nat.testBit_or, hm, Bool.or_false]

theorem testBit_120_outside {i : Nat} (h3 : i ≠ 3) (h4 : i ≠ 4) (h5 : i ≠ 5)
    (h6 : i ≠ 6) : Nat.testBit 120 i = false := by
  by_cases hlt : i < 7
  · interval_cases i <;> first | decide | simp_all
  · apply Nat.testBit_lt_two_pow
    have h7 : (2 : Nat) ^ 7 ≤ 2 ^ i := Nat.pow_le_pow_right (by omega) (by omega)
    omega

theorem testBit_low_mask {m i k : Nat} (hm : m < 2 ^ k) (hi : k ≤ i) :
    Nat.testBit m i = false := by
  apply Nat.testBit_lt_two_pow
  have hk : (2 : Nat) ^ k ≤ 2 ^ i := Nat.pow_le_pow_right (by omega) hi
  omega

theorem rcode_toNat_lt (rc : RCode) : RCode.toNat rc < 16 := by
  cases rc <;> decide

/-- Claim C6: each flag setter leaves every bit outside its own logical
field unchanged: set_opcode touches only bits 3-6 of the first flag byte
(QR, AA, TC, RD and all of the second byte are preserved), set_rd touches
only bit 0 of the first flag byte, and set_rcode touches only the RCODE
nibble, bits 0-3 of the second flag byte (RA, Z and all of the first byte
are preserved). -/
theorem C6_setters_touch_only_their_field (h : Header) (op : OpCode) (rd : Bool)
    (rc : RCode) (i : Nat) :
    ((i ≠ 3 ∧ i ≠ 4 ∧ i ≠ 5 ∧ i ≠ 6) →
      (h.set_opcode op).flags0.testBit i = h.flags0.testBit i)
    ∧ (h.set_opcode op).flags1 = h.flags1
    ∧ (i ≠ 0 → (h.set_rd rd).flags0.testBit i = h.flags0.testBit i)
    ∧ (h.set_rd rd).flags1 = h.flags1
    ∧ (h.set_rcode rc).flags0 = h.flags0
    ∧ (4 ≤ i → (h.set_rcode rc).flags1.testBit i = h.flags1.testBit i) := by
  have hrdf : h.set_rd false = { h with flags0 := h.flags0 ||| 0 } := rfl
  have hrdt : h.set_rd true = { h with flags0 := h.flags0 ||| 1 } := rfl
  have hop : h.set_opcode op
      = { h with flags0 := h.flags0 ||| ((OpCode.toNat op <<< 3) % 256 &&& 120) } := rfl
  refine ⟨?_, rfl, ?_, ?_, rfl, ?_⟩
  · intro ⟨h3, h4, h5, h6⟩
    rw [hop]
    apply testBit_or_low
    rw [Nat.testBit_and, testBit_120_outside h3 h4 h5 h6, Bool.and_false]
  · intro hi
    cases rd
    · rw [hrdf]
      apply testBit_or_low
      exact @testBit_low_mask 0 i 1 (by omega) (by omega)
    · rw [hrdt]
      apply testBit_or_low
      exact @testBit_low_mask 1 i 1 (by omega) (by omega)
  · cases rd
    · rw [hrdf]
    · rw [hrdt]
  · intro hi
    unfold Header.set_rcode
    apply testBit_or_low
    exact testBit_low_mask (rcode_toNat_lt rc) hi

/-- A concrete header with every flag bit set, for the C6 witness. -/
def c6hdr : Header :=
  { id := 1, flags0 := 255, flags1 := 255, qdcount := 0, ancount := 0,
    nscount := 0, arcount := 0 }

/-- Witness for C6 at a concrete header, opcode, rcode and bit indices:
set_opcode preserves bit 0 (RD), and set_rcode preserves bit 7 (RA) of
the second flag byte. -/
theorem C6_setters_touch_only_their_field_witness :
    (c6hdr.set_opcode .Status).flags0.testBit 0 = c6hdr.flags0.testBit 0
    ∧ (c6hdr.set_rcode .Refused).flags1.testBit 7 = c6hdr.flags1.testBit 7 :=
  ⟨(C6_setters_touch_only_their_field c6hdr .Status true .Refused 0).1 (by decide),
   (C6_setters_touch_only_their_field c6hdr .Status true .Refused 7).2.2.2.2.2 (by decide)⟩

theorem testBit_128_outside {i : Nat} (h7 : i ≠ 7) : Nat.testBit 128 i = false := by
  by_cases hlt : i < 8
  · interval_cases i <;> first | decide | simp_all
  · apply Nat.testBit_lt_two_pow
    have h8 : (2 : Nat) ^ 8 ≤ 2 ^ i := Nat.pow_le_pow_right (by omega) (by omega)
    omega

/-- Claim C7: new_reply id returns a header whose QR bit (bit 7 of the
first flag byte) is 1, whose id is the given id, and whose every other
field and flag bit is zero. -/
theorem C7_new_reply_fields (x : Nat) :
    (Header.new_reply x).id = x
    ∧ (Header.new_reply x).flags0 = 128
    ∧ (Header.new_reply x).flags0.testBit 7 = true
    ∧ (∀ i, i ≠ 7 → (Header.new_reply x).flags0.testBit i = false)
    ∧ (Header.new_reply x).flags1 = 0
    ∧ (Header.new_reply x).qdcount = 0
    ∧ (Header.new_reply x).ancount = 0
    ∧ (Header.new_reply x).nscount = 0
    ∧ (Header.new_reply x).arcount = 0 := by
  have hf : (Header.new_reply x).flags0 = 128 := Nat.zero_or 128
  refine ⟨rfl, hf, ?_, ?_, rfl, rfl, rfl, rfl, rfl⟩
  · rw [hf]
    decide
  · intro i hi
    rw [hf]
    exact testBit_128_outside hi

/-- Witness for C7 at id 77 and bit 0. -/
theorem C7_new_reply_fields_witness :
    (Header.new_reply 77).id = 77 ∧ (Header.new_reply 77).flags0.testBit 0 = false :=
  ⟨(C7_new_reply_fields 77).1, (C7_new_reply_fields 77).2.2.2.1 0 (by decide)⟩

/-- Claim C8: RecordType::try_from yields A, NS, Cname, MX for codes 1, 2,
5, 15 and fails for every other code; a question whose 2-byte type field
holds a code outside the set fails with UnknownRecordType carrying that
code. -/
theorem C8_record_type_validation :
    (∀ v : Nat, v ≠ 1 → v ≠ 2 → v ≠ 5 → v ≠ 15 → RecordType.tryFrom v = none)
    ∧ RecordType.tryFrom 1 = some .A
    ∧ RecordType.tryFrom 2 = some .NS
    ∧ RecordType.tryFrom 5 = some .Cname
    ∧ RecordType.tryFrom 15 = some .MX
    ∧ (∀ pk fuel pos ls p b0 b1,
        DnsParser.parse_labels pk fuel pos = .ok (ls, p) →
        pk[p]? = some b0 → pk[p + 1]? = some b1 →
        RecordType.tryFrom (b0 * 256 + b1) = none →
        DnsParser.parse_question pk fuel pos
          = .err (.unknownRecordType (b0 * 256 + b1)))
    ∧ (∀ pk fuel pos ls p b0 b1,
        DnsParser.parse_labels pk fuel pos = .ok (ls, p) →
        pk[p]? = some b0 → pk[p + 1]? = some b1 →
        RecordType.tryFrom (b0 * 256 + b1) = none →
        DnsParser.parse_answer pk fuel pos
          = .err (.unknownRecordType (b0 * 256 + b1))) := by
  refine ⟨?_, rfl, rfl, rfl, rfl, ?_, ?_⟩
  · intro v h1 h2 h5 h15
    unfold RecordType.tryFrom
    rw [if_neg h1, if_neg h2, if_neg h5, if_neg h15]
  · intro pk fuel pos ls p b0 b1 hl hb0 hb1 ht
    unfold DnsParser.parse_question
    rw [hl]
    dsimp only
    have hu : read_u16 pk p = some (b0 * 256 + b1) := by
      unfold read_u16
      rw [hb0, hb1]
    rw [hu]
    dsimp only
    rw [ht]
  · intro pk fuel pos ls p b0 b1 hl hb0 hb1 ht
    unfold DnsParser.parse_answer
    rw [hl]
    dsimp only
    have hu : read_u16 pk p = some (b0 * 256 + b1) := by
      unfold read_u16
      rw [hb0, hb1]
    rw [hu]
    dsimp only
    rw [ht]

/-- Witness for C8: a question whose type field holds code 3 is rejected
with UnknownRecordType 3. -/
theorem C8_record_type_validation_witness :
    DnsParser.parse_question [0, 0, 3] 1 0 = .err (.unknownRecordType 3) :=
  C8_record_type_validation.2.2.2.2.2.1 [0, 0, 3] 1 0 [] 1 0 3 (by decide) (by decide)
    (by decide) (by decide)

/-- Claim C9: set_rd false is the identity on the header: it ors the first
flag byte with 0b0000_0000 and changes nothing, so an RD bit that is
already 1 can never be cleared through set_rd. -/
theorem C9_set_rd_false_is_identity (h : Header) : h.set_rd false = h := by
  obtain ⟨a, b, c, d, e, f, g⟩ := h
  simp [Header.set_rd]

/-- A 64-byte label of 97-bytes. -/
def c10label : List Nat := List.replicate 64 97

/-- A name consisting of one 64-byte label: length byte 64, the content,
the zero terminator. -/
def c10pkt : List Nat := 64 :: c10label ++ [0]

/-- Claim C10: a length byte between 64 and 191 (top two bits 01 or 10) is
treated as a literal label length whose many content bytes are read; the
decoder imposes no 63-byte bound, and concretely a 64-byte label parses
successfully. -/
theorem C10_literal_length_64_to_191 :
    (∀ pk pos b content fuel ls p, 64 ≤ b → b ≤ 191 →
      pk[pos]? = some b → readSlice pk (pos + 1) b = some content →
      utf8Valid content = true →
      DnsParser.parse_labels pk fuel (pos + 1 + b) = .ok (ls, p) →
      DnsParser.parse_labels pk (fuel + 1) pos = .ok (content :: ls, p))
    ∧ DnsParser.parse_labels c10pkt 2 0 = .ok ([c10label], 66) := by
  constructor
  · intro pk pos b content fuel ls p h64 h191 hb hs hu hrec
    have hne : ¬ (b = 0) := by omega
    have hptr : ¬ (b &&& 192 = 192) := by
      have hle : b &&& 192 ≤ b := Nat.and_le_left
      omega
    simp only [DnsParser.parse_labels]
    rw [hb]
    dsimp only
    rw [if_neg hne, if_neg hptr, hs]
    dsimp only
    rw [if_pos hu, hrec]
  · decide

/-- Witness for C10: the general literal-length step applied to the
concrete 64-byte label packet. -/
theorem C10_literal_length_64_to_191_witness :
    DnsParser.parse_labels c10pkt 2 0 = .ok (c10label :: [], 66) :=
  C10_literal_length_64_to_191.1 c10pkt 0 64 c10label 1 [] 66 (by decide) (by decide)
    (by decide) (by decide) (by decide) (by decide)
